import Mathlib

/-!
Verification of the movie record store in `src/main.rs`.

The program is an HTTP server holding a `HashMap<String, Movie>` behind a
single `Mutex`.  Two handlers operate on the shared state:
`post_handler` (the `put` operation) inserts a movie unless its id is
already taken, and `get_handler` (the `get` operation) looks a movie up
by id and returns its JSON serialization.

The embedding below models the map as an association list with the
observable semantics of `HashMap` (`contains_key`, `get`, `insert`),
status codes as an inductive type, and each handler as a pure state
transformer.  Both Rust handlers hold the mutex for their whole body, so
every interleaving of concurrent requests is some sequential order of
atomic handler executions; sequences of operations are modelled by
folding the handlers over a list of requests.
-/

namespace MovieStore

/-- The `Movie` struct from `src/main.rs`.  Rust declares `year: u16`;
the value is modelled as a `Nat`, and the 16-bit bound enforced by the
`u16` type at deserialization time is tracked by `Movie.yearInRange`. -/
structure Movie where
  id : String
  name : String
  year : Nat
  was_good : Bool
deriving DecidableEq, Repr

/-- The `u16` representation invariant of the `year` field: every Rust
`Movie` value satisfies this because `year` is typed `u16`. -/
def Movie.yearInRange (m : Movie) : Prop := m.year < 65536

instance (m : Movie) : Decidable m.yearInRange := by
  unfold Movie.yearInRange; infer_instance

/-- The HTTP status codes the two handlers can return
(`StatusCode::BAD_REQUEST` for a duplicate id, `StatusCode::NOT_FOUND`
for a missing record; `UNPROCESSABLE_ENTITY` is produced by the axum
`Json` extractor when a POST body fails to deserialize, before
`post_handler` runs). -/
inductive StatusCode where
  | BAD_REQUEST
  | NOT_FOUND
  | UNPROCESSABLE_ENTITY
deriving DecidableEq, Repr

deriving instance DecidableEq for Except

/-- Association-list model of `HashMap<String, Movie>`. -/
abbrev MovieMap := List (String × Movie)

namespace MovieMap

/-- `HashMap::get` (by key). -/
def get : MovieMap → String → Option Movie
  | [], _ => none
  | (k, v) :: rest, key => if k = key then some v else get rest key

/-- `HashMap::contains_key`. -/
def contains_key (m : MovieMap) (key : String) : Bool :=
  (m.get key).isSome

/-- `HashMap::insert`: replaces the entry when the key is present,
otherwise appends a fresh entry. -/
def insert : MovieMap → String → Movie → MovieMap
  | [], key, v => [(key, v)]
  | (k, w) :: rest, key, v =>
    if k = key then (key, v) :: rest else (k, w) :: insert rest key v

@[simp] theorem get_nil (key : String) : get [] key = none := rfl

theorem get_insert (m : MovieMap) (key k : String) (v : Movie) :
    (m.insert key v).get k = if key = k then some v else m.get k := by
  induction m with
  | nil =>
    by_cases h : key = k <;> simp [insert, get, h]
  | cons hd tl ih =>
    obtain ⟨k2, w⟩ := hd
    by_cases h1 : k2 = key
    · subst h1
      by_cases h2 : k2 = k <;> simp [insert, get, h2]
    · by_cases h2 : k2 = k
      · subst h2
        have : ¬ key = k2 := fun h => h1 h.symm
        simp [insert, h1, get, this]
      · simp [insert, h1, get, h2, ih]

theorem get_insert_self (m : MovieMap) (key : String) (v : Movie) :
    (m.insert key v).get key = some v := by
  simp [get_insert]

theorem get_insert_ne (m : MovieMap) (key k : String) (v : Movie)
    (h : key ≠ k) : (m.insert key v).get k = m.get k := by
  simp [get_insert, h]

theorem contains_key_iff (m : MovieMap) (key : String) :
    m.contains_key key = true ↔ ∃ v, m.get key = some v := by
  simp [contains_key, Option.isSome_iff_exists]

end MovieMap

/-- The `MoviesState` struct: the application state guarded by the
mutex. -/
structure MoviesState where
  movies : MovieMap
deriving DecidableEq, Repr

/-- `MoviesState::new()`. -/
def MoviesState.new : MoviesState := { movies := [] }

/-- `state_init()`: the fresh shared state built in `main` (the
`Arc`/`Mutex` wrapper adds no observable data). -/
def state_init : MoviesState := MoviesState.new

/-! ### JSON serialization (`serde_json::to_string_pretty`)

`get_handler` serializes the found movie with
`serde_json::to_string_pretty`.  The derived `Serialize` for `Movie`
emits an object with the four fields in declaration order; the pretty
printer indents with two spaces.  String contents are escaped exactly as
serde_json does: quote, backslash, and the named control characters get
two-character escapes, the remaining control characters below 0x20 get a
`\u00XX` escape with lowercase hex, everything else is copied verbatim.
-/

def quoteChar : Char := Char.ofNat 34

def backslashChar : Char := Char.ofNat 92

def braceOpen : Char := Char.ofNat 123

def braceClose : Char := Char.ofNat 125

/-- Lowercase hex digit, for `n < 16`. -/
def hexDigitChar (n : Nat) : Char :=
  if n < 10 then Char.ofNat (48 + n) else Char.ofNat (87 + n)

/-- serde_json's escaping of a single character inside a JSON string. -/
def escapeChar (c : Char) : List Char :=
  if c = quoteChar then [backslashChar, quoteChar]
  else if c = backslashChar then [backslashChar, backslashChar]
  else if c = Char.ofNat 8 then [backslashChar, 'b']
  else if c = Char.ofNat 9 then [backslashChar, 't']
  else if c = Char.ofNat 10 then [backslashChar, 'n']
  else if c = Char.ofNat 12 then [backslashChar, 'f']
  else if c = Char.ofNat 13 then [backslashChar, 'r']
  else if c.toNat < 32 then
    [backslashChar, 'u', '0', '0', hexDigitChar (c.toNat / 16), hexDigitChar (c.toNat % 16)]
  else [c]

def escapeList : List Char → List Char
  | [] => []
  | c :: cs => escapeChar c ++ escapeList cs

/-- A JSON string literal: opening quote, escaped content, closing
quote. -/
def encodeString (s : List Char) : List Char :=
  quoteChar :: (escapeList s ++ [quoteChar])

def digitChar (n : Nat) : Char := Char.ofNat (48 + n)

/-- Decimal rendering of a natural number, as Rust's `Display` for
`u16` prints the `year` field. -/
def natToDigits (n : Nat) : List Char :=
  if _h : n < 10 then [digitChar n]
  else natToDigits (n / 10) ++ [digitChar (n % 10)]
termination_by n
decreasing_by exact Nat.div_lt_self (by omega) (by omega)

def boolChars (b : Bool) : List Char :=
  if b then ['t', 'r', 'u', 'e'] else ['f', 'a', 'l', 's', 'e']

/-- The character stream `serde_json::to_string_pretty` produces for a
`Movie` (two-space indent, `": "` key separator, fields in declaration
order). -/
def serializeMovieChars (m : Movie) : List Char :=
  braceOpen :: '\n' :: ' ' :: ' ' ::
    (encodeString "id".data ++ ':' :: ' ' :: encodeString m.id.data ++
     ',' :: '\n' :: ' ' :: ' ' ::
     encodeString "name".data ++ ':' :: ' ' :: encodeString m.name.data ++
     ',' :: '\n' :: ' ' :: ' ' ::
     encodeString "year".data ++ ':' :: ' ' :: natToDigits m.year ++
     ',' :: '\n' :: ' ' :: ' ' ::
     encodeString "was_good".data ++ ':' :: ' ' :: boolChars m.was_good ++
     '\n' :: [braceClose])

/-- `serde_json::to_string_pretty(movie)`.  The result type is serde's
`Result`; for this derived struct over `String`/`u16`/`bool` none of
serde_json's serialization error paths (non-string map keys, failing
custom `Serialize` impls, writer errors — the writer here is an
infallible `Vec<u8>`) is reachable, so the function always returns
`ok`. -/
def to_string_pretty (m : Movie) : Except Unit String :=
  Except.ok (String.mk (serializeMovieChars m))

/-! ### The two handlers -/

/-- `post_handler` from `src/main.rs`: the `put` operation.  Takes the
state behind the mutex and the already-deserialized POST body; returns
the handler result together with the state after the call. -/
def post_handler (state : MoviesState) (movie : Movie) :
    Except StatusCode Unit × MoviesState :=
  if state.movies.contains_key movie.id then
    (Except.error StatusCode.BAD_REQUEST, state)
  else
    (Except.ok (), { movies := state.movies.insert movie.id movie })

/-- `get_handler` from `src/main.rs`: the `get` operation.  Looks the id
up in the map; on a hit it matches on the `serde_json` result, mapping a
serialization error to `NOT_FOUND`; on a miss it returns `NOT_FOUND`.
The handler only ever reads the map, so the returned state is the input
state on every path. -/
def get_handler (id : String) (state : MoviesState) :
    Except StatusCode String × MoviesState :=
  match state.movies.get id with
  | some movie =>
    match to_string_pretty movie with
    | Except.ok serialized => (Except.ok serialized, state)
    | Except.error _ => (Except.error StatusCode.NOT_FOUND, state)
  | none => (Except.error StatusCode.NOT_FOUND, state)

/-! ### JSON deserialization (`serde_json::from_str::<Movie>`)

A POST body reaches `post_handler` only after axum's `Json<Movie>`
extractor deserializes it with serde_json; a body that fails to
deserialize is rejected with `UNPROCESSABLE_ENTITY` before the handler
runs.  The model below covers the fragment relevant to `Movie`: an
object whose member values are scalars (strings, non-negative integers,
booleans, null), with arbitrary member order and whitespace.  A `year`
member must be an integer below 2^16 — this is where the `u16` type of
the Rust field rejects out-of-range input.  Escaped surrogate pairs are
not modelled (the serializer never produces them). -/

def isWsChar (c : Char) : Bool :=
  c = ' ' || c = Char.ofNat 9 || c = '\n' || c = Char.ofNat 13

def skipWs : List Char → List Char
  | [] => []
  | c :: rest => if isWsChar c then skipWs rest else c :: rest

def hexVal (c : Char) : Option Nat :=
  if 48 ≤ c.toNat && c.toNat ≤ 57 then some (c.toNat - 48)
  else if 97 ≤ c.toNat && c.toNat ≤ 102 then some (c.toNat - 87)
  else if 65 ≤ c.toNat && c.toNat ≤ 70 then some (c.toNat - 55)
  else none

/-- The character a two-character JSON escape stands for. -/
def unescapeChar (c : Char) : Option Char :=
  if c = quoteChar then some quoteChar
  else if c = backslashChar then some backslashChar
  else if c = '/' then some '/'
  else if c = 'b' then some (Char.ofNat 8)
  else if c = 'f' then some (Char.ofNat 12)
  else if c = 'n' then some (Char.ofNat 10)
  else if c = 'r' then some (Char.ofNat 13)
  else if c = 't' then some (Char.ofNat 9)
  else none

/-- Parses the body of a JSON string literal (the part after the opening
quote) up to and including the closing quote; returns the decoded
content and the remaining input. -/
def parseStringBody (l : List Char) : Option (List Char × List Char) :=
  match l with
  | [] => none
  | c :: rest =>
    if c = quoteChar then some ([], rest)
    else if c = backslashChar then
      match rest with
      | [] => none
      | e :: rest2 =>
        if e = 'u' then
          match rest2 with
          | h1 :: h2 :: h3 :: h4 :: rest4 =>
            match hexVal h1, hexVal h2, hexVal h3, hexVal h4 with
            | some v1, some v2, some v3, some v4 =>
              if ((v1 * 16 + v2) * 16 + v3) * 16 + v4 < 55296 then
                (parseStringBody rest4).map
                  (fun p => (Char.ofNat (((v1 * 16 + v2) * 16 + v3) * 16 + v4) :: p.1, p.2))
              else none
            | _, _, _, _ => none
          | _ => none
        else
          match unescapeChar e with
          | some d => (parseStringBody rest2).map (fun p => (d :: p.1, p.2))
          | none => none
    else
      (parseStringBody rest).map (fun p => (c :: p.1, p.2))
termination_by l.length
decreasing_by all_goals simp_wf <;> omega

def parseDigitsAcc (acc : Nat) : List Char → Nat × List Char
  | [] => (acc, [])
  | c :: rest =>
    if c.isDigit then parseDigitsAcc (acc * 10 + (c.toNat - 48)) rest
    else (acc, c :: rest)

def parseNumber (l : List Char) : Option (Nat × List Char) :=
  match l with
  | c :: _ => if c.isDigit then some (parseDigitsAcc 0 l) else none
  | [] => none

/-- A scalar JSON value, the only member values a `Movie` object
carries. -/
inductive JsonScalar where
  | str (s : List Char)
  | num (n : Nat)
  | jbool (b : Bool)
  | jnull
deriving DecidableEq, Repr

/-- Consumes an expected literal token, character by character. -/
def stripToken : List Char → List Char → Option (List Char)
  | [], l => some l
  | _ :: _, [] => none
  | t :: ts, c :: cs => if c = t then stripToken ts cs else none

def parseScalar (l : List Char) : Option (JsonScalar × List Char) :=
  match l with
  | [] => none
  | c :: rest =>
    if c = quoteChar then (parseStringBody rest).map (fun p => (JsonScalar.str p.1, p.2))
    else if c.isDigit then (parseNumber (c :: rest)).map (fun p => (JsonScalar.num p.1, p.2))
    else if c = 't' then (stripToken ['r', 'u', 'e'] rest).map (fun r => (JsonScalar.jbool true, r))
    else if c = 'f' then
      (stripToken ['a', 'l', 's', 'e'] rest).map (fun r => (JsonScalar.jbool false, r))
    else if c = 'n' then (stripToken ['u', 'l', 'l'] rest).map (fun r => (JsonScalar.jnull, r))
    else none

/-- Parses the members of a JSON object (expects a key next; consumes
through the closing brace).  The fuel argument only bounds the number of
members; `parseObject` passes enough for any input. -/
def parseMembersF : Nat → List Char → Option (List (List Char × JsonScalar) × List Char)
  | 0, _ => none
  | fuel + 1, l =>
    match skipWs l with
    | [] => none
    | c :: rest =>
      if c = quoteChar then
        match parseStringBody rest with
        | none => none
        | some (key, rest2) =>
          match skipWs rest2 with
          | [] => none
          | c1 :: rest3 =>
            if c1 = ':' then
              match parseScalar (skipWs rest3) with
              | none => none
              | some (v, rest4) =>
                match skipWs rest4 with
                | [] => none
                | c2 :: rest5 =>
                  if c2 = ',' then
                    (parseMembersF fuel rest5).map (fun p => ((key, v) :: p.1, p.2))
                  else if c2 = braceClose then some ([(key, v)], rest5)
                  else none
            else none
      else none

/-- Parses a JSON object into its member list. -/
def parseObject (l : List Char) : Option (List (List Char × JsonScalar) × List Char) :=
  match skipWs l with
  | c :: rest =>
    if c = braceOpen then
      match skipWs rest with
      | c2 :: rest2 =>
        if c2 = braceClose then some ([], rest2)
        else parseMembersF (rest.length + 1) rest
      | [] => none
    else none
  | [] => none

def lookupMember : List (List Char × JsonScalar) → List Char → Option JsonScalar
  | [], _ => none
  | (k, v) :: rest, key => if k = key then some v else lookupMember rest key

/-- The derived `Deserialize` for `Movie`: all four fields must be
present with the right scalar types, and `year` must fit in `u16`. -/
def movieFromMembers (ms : List (List Char × JsonScalar)) : Option Movie :=
  match lookupMember ms "id".data, lookupMember ms "name".data,
        lookupMember ms "year".data, lookupMember ms "was_good".data with
  | some (JsonScalar.str i), some (JsonScalar.str nm),
    some (JsonScalar.num y), some (JsonScalar.jbool b) =>
    if y < 65536 then
      some { id := String.mk i, name := String.mk nm, year := y, was_good := b }
    else none
  | _, _, _, _ => none

/-- `serde_json::from_str::<Movie>(body)` as performed by the axum
`Json` extractor: parse the object, require only trailing whitespace,
and build the `Movie`. -/
def deserializeMovie (body : String) : Option Movie :=
  match parseObject body.data with
  | some (ms, rest) => if skipWs rest = [] then movieFromMembers ms else none
  | none => none

/-! ### Sequences of operations

Each handler holds the single mutex for its whole body, so any
concurrent execution of requests is observably some sequential order of
atomic handler runs; these folds model such an order. -/

/-- Runs a sequence of `put` operations, collecting each result. -/
def runPuts (state : MoviesState) : List Movie → List (Except StatusCode Unit) × MoviesState
  | [] => ([], state)
  | m :: rest =>
    let r := post_handler state m
    let rs := runPuts r.2 rest
    (r.1 :: rs.1, rs.2)

/-- One store operation at the handler interface. -/
inductive Op where
  | put (m : Movie)
  | getById (id : String)

/-- Runs a sequence of operations, keeping the final state. -/
def runOps (state : MoviesState) : List Op → MoviesState
  | [] => state
  | Op.put m :: rest => runOps (post_handler state m).2 rest
  | Op.getById i :: rest => runOps (get_handler i state).2 rest

/-- One inbound HTTP request as it reaches the transport shell. -/
inductive Request where
  | postMovie (body : String)
  | getMovie (id : String)

/-- Transport-shell dispatch: a POST body goes through the `Json`
extractor first; only a successfully deserialized `Movie` reaches
`post_handler`. -/
def handleRequest (state : MoviesState) : Request → MoviesState
  | Request.postMovie body =>
    match deserializeMovie body with
    | some m => (post_handler state m).2
    | none => state
  | Request.getMovie i => (get_handler i state).2

def runRequests (state : MoviesState) (reqs : List Request) : MoviesState :=
  reqs.foldl handleRequest state

/-! ### Character conversion facts -/

theorem char_toNat_ofNat (n : Nat) (h : n < 55296) : (Char.ofNat n).toNat = n := by
  have hv : n.isValidChar := Or.inl h
  simp [Char.ofNat, hv, Char.ofNatAux, Char.toNat, UInt32.toNat, BitVec.toNat_ofNatLt]

theorem char_ofNat_toNat (c : Char) : Char.ofNat c.toNat = c := by
  have hv : (c.toNat).isValidChar := c.valid
  apply Char.eq_of_val_eq
  rw [Char.ofNat, dif_pos hv]
  apply UInt32.eq_of_toBitVec_eq
  simp [Char.ofNatAux, Char.toNat, UInt32.toNat]
  apply BitVec.eq_of_toNat_eq
  simp [BitVec.toNat_ofNatLt]

/-! ### Whitespace lemmas -/

theorem skipWs_cons_ws (c : Char) (l : List Char) (h : isWsChar c = true) :
    skipWs (c :: l) = skipWs l := by
  simp [skipWs, h]

theorem skipWs_cons_nws (c : Char) (l : List Char) (h : isWsChar c = false) :
    skipWs (c :: l) = c :: l := by
  simp [skipWs, h]

/-! ### Decimal digit lemmas -/

theorem digitChar_isDigit (j : Nat) (h : j < 10) : (digitChar j).isDigit = true := by
  interval_cases j <;> decide

theorem digitChar_sub48 (j : Nat) (h : j < 10) : (digitChar j).toNat - 48 = j := by
  interval_cases j <;> decide

theorem digitChar_ne_quote (j : Nat) (h : j < 10) : digitChar j ≠ quoteChar := by
  interval_cases j <;> decide

/-- Head-of-list digit test, used to state where digit runs stop. -/
def headIsDigit : List Char → Bool
  | [] => false
  | c :: _ => c.isDigit

theorem natToDigits_mem (n : Nat) : ∀ c ∈ natToDigits n, ∃ j, j < 10 ∧ c = digitChar j := by
  induction n using Nat.strong_induction_on with
  | _ n ih =>
    by_cases h : n < 10
    · rw [natToDigits, dif_pos h]
      intro c hc
      simp only [List.mem_singleton] at hc
      exact ⟨n, h, hc⟩
    · rw [natToDigits, dif_neg h]
      intro c hc
      rcases List.mem_append.mp hc with h1 | h1
      · exact ih (n / 10) (Nat.div_lt_self (by omega) (by omega)) c h1
      · simp only [List.mem_singleton] at h1
        exact ⟨n % 10, Nat.mod_lt _ (by omega), h1⟩

theorem natToDigits_isDigit (n : Nat) : ∀ c ∈ natToDigits n, c.isDigit = true := by
  intro c hc
  obtain ⟨j, hj, rfl⟩ := natToDigits_mem n c hc
  exact digitChar_isDigit j hj

theorem natToDigits_ne_nil (n : Nat) : natToDigits n ≠ [] := by
  rw [natToDigits]
  by_cases h : n < 10 <;> simp [h]

theorem parseDigitsAcc_digits (ds : List Char) (hds : ∀ c ∈ ds, c.isDigit = true)
    (acc : Nat) (tail : List Char) :
    parseDigitsAcc acc (ds ++ tail) =
      parseDigitsAcc (ds.foldl (fun a c => a * 10 + (c.toNat - 48)) acc) tail := by
  induction ds generalizing acc with
  | nil => simp
  | cons c cs ih =>
    have hc : c.isDigit = true := hds c (by simp)
    simp only [List.cons_append, parseDigitsAcc, hc, if_true, List.foldl_cons]
    exact ih (fun d hd => hds d (by simp [hd])) _

theorem natToDigits_foldl (n : Nat) : ∀ acc : Nat,
    (natToDigits n).foldl (fun a c => a * 10 + (c.toNat - 48)) acc =
      acc * 10 ^ (natToDigits n).length + n := by
  induction n using Nat.strong_induction_on with
  | _ n ih =>
    intro acc
    by_cases h : n < 10
    · rw [natToDigits, dif_pos h]
      simp [digitChar_sub48 n h]
    · rw [natToDigits, dif_neg h]
      rw [List.foldl_append, ih (n / 10) (Nat.div_lt_self (by omega) (by omega))]
      simp only [List.foldl_cons, List.foldl_nil, List.length_append, List.length_cons,
        List.length_nil]
      rw [digitChar_sub48 (n % 10) (Nat.mod_lt _ (by omega))]
      have hmod : n / 10 * 10 + n % 10 = n := by omega
      calc (acc * 10 ^ (natToDigits (n / 10)).length + n / 10) * 10 + n % 10
          = acc * (10 ^ (natToDigits (n / 10)).length * 10) + (n / 10 * 10 + n % 10) := by ring
        _ = acc * 10 ^ ((natToDigits (n / 10)).length + (0 + 1)) + n := by
            rw [hmod, Nat.zero_add, pow_succ]

theorem parseDigitsAcc_stop (acc : Nat) (tail : List Char) (h : headIsDigit tail = false) :
    parseDigitsAcc acc tail = (acc, tail) := by
  cases tail with
  | nil => rfl
  | cons c cs =>
    simp only [headIsDigit] at h
    simp [parseDigitsAcc, h]

theorem parseNumber_natToDigits (n : Nat) (tail : List Char) (h : headIsDigit tail = false) :
    parseNumber (natToDigits n ++ tail) = some (n, tail) := by
  have hdig := natToDigits_isDigit n
  obtain ⟨c, ds, hcons⟩ : ∃ c ds, natToDigits n = c :: ds := by
    cases hnd : natToDigits n with
    | nil => exact absurd hnd (natToDigits_ne_nil n)
    | cons c ds => exact ⟨c, ds, rfl⟩
  have hc : c.isDigit = true := hdig c (by rw [hcons]; simp)
  rw [hcons, List.cons_append]
  simp only [parseNumber, hc, if_true]
  rw [← List.cons_append, ← hcons]
  rw [parseDigitsAcc_digits _ hdig, natToDigits_foldl, parseDigitsAcc_stop _ _ h]
  simp

/-! ### String escaping round-trip -/

theorem hexVal_hexDigitChar (d : Nat) (h : d < 16) : hexVal (hexDigitChar d) = some d := by
  interval_cases d <;> decide

theorem parseStringBody_endquote (rest : List Char) :
    parseStringBody (quoteChar :: rest) = some ([], rest) := by
  conv_lhs => rw [parseStringBody.eq_def]
  simp

theorem parseStringBody_lit (c : Char) (tail : List Char)
    (h1 : c ≠ quoteChar) (h2 : c ≠ backslashChar) :
    parseStringBody (c :: tail) = (parseStringBody tail).map (fun p => (c :: p.1, p.2)) := by
  conv_lhs => rw [parseStringBody.eq_def]
  simp [h1, h2]

theorem parseStringBody_escseq (e d : Char) (tail : List Char)
    (hne : e ≠ 'u') (hd : unescapeChar e = some d) :
    parseStringBody (backslashChar :: e :: tail) =
      (parseStringBody tail).map (fun p => (d :: p.1, p.2)) := by
  conv_lhs => rw [parseStringBody.eq_def]
  simp [hne, hd, show ¬ backslashChar = quoteChar from by decide]

theorem parseStringBody_uescape (v : Nat) (hv : v < 32) (tail : List Char) :
    parseStringBody (backslashChar :: 'u' :: '0' :: '0' ::
        hexDigitChar (v / 16) :: hexDigitChar (v % 16) :: tail) =
      (parseStringBody tail).map (fun p => (Char.ofNat v :: p.1, p.2)) := by
  have hval : ((0 * 16 + 0) * 16 + v / 16) * 16 + v % 16 = v := by omega
  conv_lhs => rw [parseStringBody.eq_def]
  simp only [show ¬ backslashChar = quoteChar from by decide, if_false, ite_false,
    eq_self_iff_true, if_true, ite_true,
    show hexVal '0' = some 0 from by decide,
    hexVal_hexDigitChar (v / 16) (by omega), hexVal_hexDigitChar (v % 16) (by omega)]
  simp only [hval]
  rw [if_pos (by omega : v < 55296)]

theorem parseStringBody_escape (s rest : List Char) :
    parseStringBody (escapeList s ++ (quoteChar :: rest)) = some (s, rest) := by
  induction s with
  | nil =>
    simp only [escapeList, List.nil_append]
    exact parseStringBody_endquote rest
  | cons c cs ih =>
    simp only [escapeList, List.append_assoc]
    by_cases h1 : c = quoteChar
    · subst h1
      rw [show escapeChar quoteChar = [backslashChar, quoteChar] from by decide]
      simp only [List.cons_append, List.nil_append]
      rw [parseStringBody_escseq quoteChar quoteChar _ (by decide) (by decide), ih]
      rfl
    by_cases h2 : c = backslashChar
    · subst h2
      rw [show escapeChar backslashChar = [backslashChar, backslashChar] from by decide]
      simp only [List.cons_append, List.nil_append]
      rw [parseStringBody_escseq backslashChar backslashChar _ (by decide) (by decide), ih]
      rfl
    by_cases h3 : c = Char.ofNat 8
    · subst h3
      rw [show escapeChar (Char.ofNat 8) = [backslashChar, 'b'] from by decide]
      simp only [List.cons_append, List.nil_append]
      rw [parseStringBody_escseq 'b' (Char.ofNat 8) _ (by decide) (by decide), ih]
      rfl
    by_cases h4 : c = Char.ofNat 9
    · subst h4
      rw [show escapeChar (Char.ofNat 9) = [backslashChar, 't'] from by decide]
      simp only [List.cons_append, List.nil_append]
      rw [parseStringBody_escseq 't' (Char.ofNat 9) _ (by decide) (by decide), ih]
      rfl
    by_cases h5 : c = Char.ofNat 10
    · subst h5
      rw [show escapeChar (Char.ofNat 10) = [backslashChar, 'n'] from by decide]
      simp only [List.cons_append, List.nil_append]
      rw [parseStringBody_escseq 'n' (Char.ofNat 10) _ (by decide) (by decide), ih]
      rfl
    by_cases h6 : c = Char.ofNat 12
    · subst h6
      rw [show escapeChar (Char.ofNat 12) = [backslashChar, 'f'] from by decide]
      simp only [List.cons_append, List.nil_append]
      rw [parseStringBody_escseq 'f' (Char.ofNat 12) _ (by decide) (by decide), ih]
      rfl
    by_cases h7 : c = Char.ofNat 13
    · subst h7
      rw [show escapeChar (Char.ofNat 13) = [backslashChar, 'r'] from by decide]
      simp only [List.cons_append, List.nil_append]
      rw [parseStringBody_escseq 'r' (Char.ofNat 13) _ (by decide) (by decide), ih]
      rfl
    by_cases h8 : c.toNat < 32
    · rw [show escapeChar c =
          [backslashChar, 'u', '0', '0', hexDigitChar (c.toNat / 16), hexDigitChar (c.toNat % 16)]
          from by simp [escapeChar, h1, h2, h3, h4, h5, h6, h7, h8]]
      simp only [List.cons_append, List.nil_append]
      rw [parseStringBody_uescape c.toNat h8, ih, char_ofNat_toNat]
      rfl
    · rw [show escapeChar c = [c] from by simp [escapeChar, h1, h2, h3, h4, h5, h6, h7, h8]]
      simp only [List.cons_append, List.nil_append]
      rw [parseStringBody_lit c _ h1 h2, ih]
      rfl

/-! ### Scalar-value parsing lemmas -/

theorem encodeString_append (s tail : List Char) :
    encodeString s ++ tail = quoteChar :: (escapeList s ++ (quoteChar :: tail)) := by
  simp [encodeString]

theorem parseScalar_str (s tail : List Char) :
    parseScalar (quoteChar :: (escapeList s ++ (quoteChar :: tail))) =
      some (JsonScalar.str s, tail) := by
  simp only [parseScalar, if_true, ite_true]
  rw [parseStringBody_escape]
  rfl

theorem parseScalar_num (n : Nat) (tail : List Char) (h : headIsDigit tail = false) :
    parseScalar (natToDigits n ++ tail) = some (JsonScalar.num n, tail) := by
  obtain ⟨c, ds, hcons⟩ : ∃ c ds, natToDigits n = c :: ds := by
    cases hnd : natToDigits n with
    | nil => exact absurd hnd (natToDigits_ne_nil n)
    | cons c ds => exact ⟨c, ds, rfl⟩
  obtain ⟨j, hj, hcj⟩ := natToDigits_mem n c (by rw [hcons]; simp)
  have hdig : c.isDigit = true := by rw [hcj]; exact digitChar_isDigit j hj
  have hq : c ≠ quoteChar := by rw [hcj]; exact digitChar_ne_quote j hj
  rw [hcons, List.cons_append]
  simp only [parseScalar]
  rw [if_neg hq, if_pos hdig, ← List.cons_append, ← hcons,
    parseNumber_natToDigits n tail h]
  rfl

theorem parseScalar_bool (b : Bool) (tail : List Char) :
    parseScalar (boolChars b ++ tail) = some (JsonScalar.jbool b, tail) := by
  cases b
  · simp only [boolChars, Bool.false_eq_true, if_false, ite_false, List.cons_append]
    simp only [parseScalar]
    rw [if_neg (by decide : ¬ ('f' : Char) = quoteChar),
      if_neg (by decide : ¬ ('f' : Char).isDigit = true),
      if_neg (by decide : ¬ ('f' : Char) = 't')]
    simp [stripToken]
  · simp only [boolChars, if_true, ite_true, List.cons_append]
    simp only [parseScalar]
    rw [if_neg (by decide : ¬ ('t' : Char) = quoteChar),
      if_neg (by decide : ¬ ('t' : Char).isDigit = true)]
    simp [stripToken]

/-! ### Whitespace-skipping facts for the concrete serializer stream -/

theorem skipWs_nl (l : List Char) : skipWs ('\n' :: l) = skipWs l :=
  skipWs_cons_ws _ _ (by decide)

theorem skipWs_sp (l : List Char) : skipWs (' ' :: l) = skipWs l :=
  skipWs_cons_ws _ _ (by decide)

theorem skipWs_quote (l : List Char) : skipWs (quoteChar :: l) = quoteChar :: l :=
  skipWs_cons_nws _ _ (by decide)

theorem skipWs_colon (l : List Char) : skipWs (':' :: l) = ':' :: l :=
  skipWs_cons_nws _ _ (by decide)

theorem skipWs_comma (l : List Char) : skipWs (',' :: l) = ',' :: l :=
  skipWs_cons_nws _ _ (by decide)

theorem skipWs_braceOpen (l : List Char) : skipWs (braceOpen :: l) = braceOpen :: l :=
  skipWs_cons_nws _ _ (by decide)

theorem skipWs_braceClose (l : List Char) : skipWs (braceClose :: l) = braceClose :: l :=
  skipWs_cons_nws _ _ (by decide)

theorem digitChar_not_ws (j : Nat) (h : j < 10) : isWsChar (digitChar j) = false := by
  interval_cases j <;> decide

theorem skipWs_natToDigits (n : Nat) (tail : List Char) :
    skipWs (natToDigits n ++ tail) = natToDigits n ++ tail := by
  obtain ⟨c, ds, hcons⟩ : ∃ c ds, natToDigits n = c :: ds := by
    cases hnd : natToDigits n with
    | nil => exact absurd hnd (natToDigits_ne_nil n)
    | cons c ds => exact ⟨c, ds, rfl⟩
  obtain ⟨j, hj, hcj⟩ := natToDigits_mem n c (by rw [hcons]; simp)
  rw [hcons, List.cons_append, skipWs_cons_nws]
  rw [hcj]
  exact digitChar_not_ws j hj

theorem skipWs_boolChars (b : Bool) (tail : List Char) :
    skipWs (boolChars b ++ tail) = boolChars b ++ tail := by
  cases b <;> simp only [boolChars, if_true, if_false, ite_true, ite_false,
    Bool.false_eq_true, List.cons_append] <;> exact skipWs_cons_nws _ _ (by decide)

/-! ### Object-member parsing of the serializer output -/

theorem parseMembersF_strfield (f : Nat) (k s rest : List Char) :
    parseMembersF (f + 1)
        ('\n' :: ' ' :: ' ' :: quoteChar ::
          (escapeList k ++ (quoteChar :: ':' :: ' ' :: quoteChar ::
            (escapeList s ++ (quoteChar :: ',' :: rest))))) =
      (parseMembersF f rest).map (fun p => ((k, JsonScalar.str s) :: p.1, p.2)) := by
  simp only [parseMembersF, skipWs_nl, skipWs_sp, skipWs_quote, skipWs_colon, skipWs_comma,
    parseStringBody_escape, parseScalar_str, eq_self_iff_true, if_true, ite_true]

theorem parseMembersF_numfield (f : Nat) (k rest : List Char) (n : Nat) :
    parseMembersF (f + 1)
        ('\n' :: ' ' :: ' ' :: quoteChar ::
          (escapeList k ++ (quoteChar :: ':' :: ' ' ::
            (natToDigits n ++ (',' :: rest))))) =
      (parseMembersF f rest).map (fun p => ((k, JsonScalar.num n) :: p.1, p.2)) := by
  have hnum := parseScalar_num n (',' :: rest) (by simp only [headIsDigit]; decide)
  simp only [parseMembersF, skipWs_nl, skipWs_sp, skipWs_quote, skipWs_colon, skipWs_comma,
    skipWs_natToDigits, parseStringBody_escape, hnum, eq_self_iff_true, if_true, ite_true]

theorem parseMembersF_boolfield_last (f : Nat) (k : List Char) (b : Bool) :
    parseMembersF (f + 1)
        ('\n' :: ' ' :: ' ' :: quoteChar ::
          (escapeList k ++ (quoteChar :: ':' :: ' ' ::
            (boolChars b ++ ('\n' :: [braceClose]))))) =
      some ([(k, JsonScalar.jbool b)], []) := by
  have hb := parseScalar_bool b ('\n' :: [braceClose])
  simp only [parseMembersF, skipWs_nl, skipWs_sp, skipWs_quote, skipWs_colon,
    skipWs_braceClose, skipWs_boolChars, parseStringBody_escape, hb,
    eq_self_iff_true, if_true, ite_true,
    show ¬ braceClose = ',' from by decide, if_false, ite_false]

theorem skipWs_nil : skipWs [] = [] := rfl

theorem deserializeMovie_serialize (m : Movie) (hy : m.year < 65536) :
    deserializeMovie (String.mk (serializeMovieChars m)) = some m := by
  rw [deserializeMovie]
  rw [show (String.mk (serializeMovieChars m)).data = serializeMovieChars m from rfl]
  rw [serializeMovieChars]
  simp only [List.append_assoc, List.cons_append, encodeString_append]
  simp only [parseObject, skipWs_braceOpen, skipWs_nl, skipWs_sp, skipWs_quote,
    eq_self_iff_true, if_true, ite_true,
    show ¬ quoteChar = braceClose from by decide, if_false, ite_false,
    List.length_cons]
  simp only [parseMembersF_strfield, parseMembersF_numfield, parseMembersF_boolfield_last,
    Option.map_some']
  simp only [skipWs_nil, eq_self_iff_true, if_true, ite_true]
  simp only [movieFromMembers, lookupMember, eq_self_iff_true, if_true, ite_true,
    show ¬ "id".data = "name".data from by decide,
    show ¬ "id".data = "year".data from by decide,
    show ¬ "id".data = "was_good".data from by decide,
    show ¬ "name".data = "year".data from by decide,
    show ¬ "name".data = "was_good".data from by decide,
    show ¬ "year".data = "was_good".data from by decide,
    if_false, ite_false]
  simp only [hy, if_true, ite_true]

/-! ### Deserialized movies satisfy the u16 bound -/

theorem movieFromMembers_yearInRange (ms : List (List Char × JsonScalar)) (m : Movie)
    (h : movieFromMembers ms = some m) : m.year < 65536 := by
  unfold movieFromMembers at h
  split at h
  case _ i nm y b _ _ _ _ =>
    split at h
    case isTrue hy =>
      cases h
      exact hy
    case isFalse => exact absurd h (by simp)
  case _ => exact absurd h (by simp)

theorem deserializeMovie_yearInRange (body : String) (m : Movie)
    (h : deserializeMovie body = some m) : m.year < 65536 := by
  unfold deserializeMovie at h
  split at h
  case _ p ms rest heq =>
    split at h
    · exact movieFromMembers_yearInRange _ _ h
    · exact absurd h (by simp)
  case _ => exact absurd h (by simp)

/-! ### Handler-level lemmas -/

theorem contains_key_false_iff (mm : MovieMap) (key : String) :
    mm.contains_key key = false ↔ mm.get key = none := by
  unfold MovieMap.contains_key
  cases mm.get key <;> simp

theorem post_handler_fresh (state : MoviesState) (m : Movie)
    (h : state.movies.contains_key m.id = false) :
    post_handler state m = (Except.ok (), { movies := state.movies.insert m.id m }) := by
  simp [post_handler, h]

theorem post_handler_dup (state : MoviesState) (m : Movie)
    (h : state.movies.contains_key m.id = true) :
    post_handler state m = (Except.error StatusCode.BAD_REQUEST, state) := by
  simp [post_handler, h]

theorem get_handler_found (i : String) (state : MoviesState) (m : Movie)
    (h : state.movies.get i = some m) :
    get_handler i state = (Except.ok (String.mk (serializeMovieChars m)), state) := by
  simp [get_handler, h, to_string_pretty]

theorem get_handler_missing (i : String) (state : MoviesState)
    (h : state.movies.get i = none) :
    get_handler i state = (Except.error StatusCode.NOT_FOUND, state) := by
  simp [get_handler, h]

theorem get_handler_state (i : String) (state : MoviesState) :
    (get_handler i state).2 = state := by
  cases h : state.movies.get i
  · simp [get_handler, h]
  · simp [get_handler, h, to_string_pretty]

theorem post_handler_get_preserved (state : MoviesState) (m2 : Movie) (i : String) (m : Movie)
    (h : state.movies.get i = some m) :
    (post_handler state m2).2.movies.get i = some m := by
  cases hc : state.movies.contains_key m2.id
  · have hnone : state.movies.get m2.id = none := (contains_key_false_iff _ _).mp hc
    have hne : m2.id ≠ i := by
      intro he
      rw [he, h] at hnone
      exact Option.noConfusion hnone
    rw [post_handler_fresh state m2 hc]
    simpa [MovieMap.get_insert_ne _ _ _ _ hne] using h
  · rw [post_handler_dup state m2 hc]
    exact h

/-! ### Sequence-level lemmas -/

theorem contains_key_eq_isSome (mm : MovieMap) (key : String) :
    mm.contains_key key = (mm.get key).isSome := rfl

theorem runOps_get_preserved (ops : List Op) : ∀ (state : MoviesState) (i : String) (m : Movie),
    state.movies.get i = some m → (runOps state ops).movies.get i = some m := by
  induction ops with
  | nil => intro state i m h; exact h
  | cons op rest ih =>
    intro state i m h
    cases op with
    | put m2 =>
      simp only [runOps]
      exact ih _ _ _ (post_handler_get_preserved state m2 i m h)
    | getById j =>
      simp only [runOps]
      rw [get_handler_state]
      exact ih _ _ _ h

theorem runPuts_get_preserved (ms : List Movie) : ∀ (state : MoviesState) (i : String) (m : Movie),
    state.movies.get i = some m → (runPuts state ms).2.movies.get i = some m := by
  induction ms with
  | nil => intro state i m h; exact h
  | cons m2 rest ih =>
    intro state i m h
    simp only [runPuts]
    exact ih _ _ _ (post_handler_get_preserved state m2 i m h)

theorem runPuts_all_fresh (ms : List Movie) : ∀ (state : MoviesState),
    (∀ m ∈ ms, state.movies.contains_key m.id = false) →
    ms.Pairwise (fun a b => a.id ≠ b.id) →
    (∀ r ∈ (runPuts state ms).1, r = Except.ok ()) ∧
    (∀ m ∈ ms, (runPuts state ms).2.movies.get m.id = some m) := by
  induction ms with
  | nil =>
    intro state _ _
    exact ⟨fun r hr => absurd hr (by simp [runPuts]), fun m hm => absurd hm (by simp)⟩
  | cons m2 rest ih =>
    intro state hfresh hpw
    have hc : state.movies.contains_key m2.id = false := hfresh m2 (by simp)
    have hpost := post_handler_fresh state m2 hc
    have hfresh1 : ∀ m ∈ rest,
        ({ movies := state.movies.insert m2.id m2 } : MoviesState).movies.contains_key m.id
          = false := by
      intro m hm
      have hne : m2.id ≠ m.id := (List.pairwise_cons.mp hpw).1 m hm
      rw [contains_key_eq_isSome]
      show ((state.movies.insert m2.id m2).get m.id).isSome = false
      rw [MovieMap.get_insert_ne _ _ _ _ hne]
      rw [← contains_key_eq_isSome]
      exact hfresh m (by simp [hm])
    obtain ⟨hok, hget⟩ := ih _ hfresh1 (List.pairwise_cons.mp hpw).2
    constructor
    · intro r hr
      simp only [runPuts, hpost] at hr
      rcases List.mem_cons.mp hr with rfl | hr2
      · rfl
      · exact hok r hr2
    · intro m hm
      simp only [runPuts, hpost]
      rcases List.mem_cons.mp hm with rfl | hm2
      · exact runPuts_get_preserved rest _ m.id m (MovieMap.get_insert_self _ _ _)
      · exact hget m hm2

theorem runPuts_all_dup (ms : List Movie) : ∀ (state : MoviesState),
    (∀ m ∈ ms, state.movies.contains_key m.id = true) →
    (runPuts state ms).1 = ms.map (fun _ => Except.error StatusCode.BAD_REQUEST) ∧
    (runPuts state ms).2 = state := by
  induction ms with
  | nil => intro state _; exact ⟨rfl, rfl⟩
  | cons m2 rest ih =>
    intro state hdup
    have hpost := post_handler_dup state m2 (hdup m2 (by simp))
    obtain ⟨h1, h2⟩ := ih state (fun m hm => hdup m (by simp [hm]))
    simp only [runPuts, hpost, List.map_cons]
    exact ⟨by rw [h1], h2⟩

/-! ### The u16 invariant over request sequences -/

/-- Every record in the store has a year below 2^16. -/
def stateYearsInRange (state : MoviesState) : Prop :=
  ∀ i m, state.movies.get i = some m → m.year < 65536

theorem post_preserves_years (state : MoviesState) (m2 : Movie)
    (hm2 : m2.year < 65536) (h : stateYearsInRange state) :
    stateYearsInRange (post_handler state m2).2 := by
  intro i m hg
  cases hc : state.movies.contains_key m2.id
  · rw [post_handler_fresh state m2 hc] at hg
    have hg2 : (state.movies.insert m2.id m2).get i = some m := hg
    rw [MovieMap.get_insert] at hg2
    by_cases he : m2.id = i
    · rw [if_pos he] at hg2
      cases hg2
      exact hm2
    · rw [if_neg he] at hg2
      exact h i m hg2
  · rw [post_handler_dup state m2 hc] at hg
    exact h i m hg

theorem handleRequest_preserves_years (state : MoviesState) (req : Request)
    (h : stateYearsInRange state) : stateYearsInRange (handleRequest state req) := by
  cases req with
  | postMovie body =>
    simp only [handleRequest]
    cases hd : deserializeMovie body with
    | none => exact h
    | some m2 => exact post_preserves_years state m2 (deserializeMovie_yearInRange body m2 hd) h
  | getMovie i =>
    simp only [handleRequest]
    rw [get_handler_state]
    exact h

theorem runRequests_years (reqs : List Request) : ∀ state, stateYearsInRange state →
    stateYearsInRange (runRequests state reqs) := by
  induction reqs with
  | nil => intro state h; exact h
  | cons r rest ih =>
    intro state h
    simp only [runRequests, List.foldl_cons]
    exact ih _ (handleRequest_preserves_years state r h)

theorem state_init_years : stateYearsInRange state_init := by
  intro i m h
  exact absurd h (by simp [state_init, MoviesState.new])

theorem runPuts_same_id_counts (ms : List Movie) (i0 : String) (state : MoviesState)
    (hall : ∀ m ∈ ms, m.id = i0) (hfresh : state.movies.contains_key i0 = false)
    (hne : ms ≠ []) :
    (runPuts state ms).1.count (Except.ok ()) = 1 ∧
    (runPuts state ms).1.count (Except.error StatusCode.BAD_REQUEST) = ms.length - 1 ∧
    (runPuts state ms).1.length = ms.length := by
  cases ms with
  | nil => exact absurd rfl hne
  | cons m2 rest =>
    have hid : m2.id = i0 := hall m2 (by simp)
    have hc : state.movies.contains_key m2.id = false := by rw [hid]; exact hfresh
    have hpost := post_handler_fresh state m2 hc
    have hdup : ∀ m ∈ rest,
        ({ movies := state.movies.insert m2.id m2 } : MoviesState).movies.contains_key m.id
          = true := by
      intro m hm
      have hmi : m.id = i0 := hall m (by simp [hm])
      rw [hmi, ← hid, contains_key_eq_isSome]
      show ((state.movies.insert m2.id m2).get m2.id).isSome = true
      rw [MovieMap.get_insert_self]
      rfl
    obtain ⟨h1, h2⟩ := runPuts_all_dup rest _ hdup
    simp only [runPuts, hpost, h1]
    have hconst : rest.map (fun _ => (Except.error StatusCode.BAD_REQUEST : Except StatusCode Unit))
        = List.replicate rest.length (Except.error StatusCode.BAD_REQUEST) := List.map_const rest _
    rw [hconst]
    refine ⟨?_, ?_, ?_⟩
    · simp [List.count_cons_self, List.count_replicate, beq_iff_eq]
    · simp [List.count_cons_of_ne, List.count_replicate_self]
    · simp

theorem handleRequest_post_some (state : MoviesState) (body : String) (m : Movie)
    (h : deserializeMovie body = some m) :
    handleRequest state (Request.postMovie body) = (post_handler state m).2 := by
  simp only [handleRequest, h]

theorem runRequests_one (state : MoviesState) (r : Request) :
    runRequests state [r] = handleRequest state r := by
  simp only [runRequests, List.foldl_cons, List.foldl_nil]

/-! ### Concrete sample data for witnesses -/

def sampleMovie : Movie := { id := "m1", name := "Up", year := 2009, was_good := true }

def sampleMovie2 : Movie := { id := "m1", name := "Cars", year := 2006, was_good := false }

def sampleMovie3 : Movie := { id := "m2", name := "Cars", year := 2006, was_good := false }

def sampleState : MoviesState := { movies := [("m1", sampleMovie)] }

/-! ### Claim theorems -/

/-- C1: `put` succeeds exactly when no record with the same id is present, and
then inserts the record; on a duplicate id it fails with `BAD_REQUEST` (the
`DuplicateId` outcome), leaves the store unchanged, and a subsequent `get`
still returns the originally stored record, not the new one. -/
theorem put_duplicate_id_spec (state : MoviesState) (r : Movie) :
    ((post_handler state r).1 = Except.ok () ↔ state.movies.contains_key r.id = false) ∧
    (state.movies.contains_key r.id = false →
      post_handler state r = (Except.ok (), { movies := state.movies.insert r.id r }) ∧
      (post_handler state r).2.movies.get r.id = some r) ∧
    (∀ orig, state.movies.get r.id = some orig →
      post_handler state r = (Except.error StatusCode.BAD_REQUEST, state) ∧
      (get_handler r.id (post_handler state r).2).1 =
        Except.ok (String.mk (serializeMovieChars orig)) ∧
      (orig ≠ r → (post_handler state r).2.movies.get r.id ≠ some r)) := by
  refine ⟨⟨?_, ?_⟩, ?_, ?_⟩
  · intro hok
    cases hc : state.movies.contains_key r.id
    · rfl
    · rw [post_handler_dup state r hc] at hok
      exact absurd hok (by simp)
  · intro hc
    rw [post_handler_fresh state r hc]
  · intro hc
    refine ⟨post_handler_fresh state r hc, ?_⟩
    rw [post_handler_fresh state r hc]
    exact MovieMap.get_insert_self _ _ _
  · intro orig horig
    have hc : state.movies.contains_key r.id = true := by
      rw [contains_key_eq_isSome, horig]
      rfl
    have hdup := post_handler_dup state r hc
    refine ⟨hdup, ?_, ?_⟩
    · rw [hdup, get_handler_found r.id state orig horig]
    · intro hne hcontra
      rw [hdup, horig] at hcontra
      exact hne (Option.some.inj hcontra)

theorem put_duplicate_id_spec_witness :
    (post_handler state_init sampleMovie).1 = Except.ok () ∧
    post_handler (post_handler state_init sampleMovie).2 sampleMovie2 =
      (Except.error StatusCode.BAD_REQUEST, (post_handler state_init sampleMovie).2) ∧
    (get_handler "m1" (post_handler (post_handler state_init sampleMovie).2 sampleMovie2).2).1 =
      Except.ok (String.mk (serializeMovieChars sampleMovie)) := by
  refine ⟨?_, ?_, ?_⟩
  · exact ((put_duplicate_id_spec state_init sampleMovie).1).mpr (by decide)
  · exact ((put_duplicate_id_spec (post_handler state_init sampleMovie).2 sampleMovie2).2.2
      sampleMovie (by decide)).1
  · exact ((put_duplicate_id_spec (post_handler state_init sampleMovie).2 sampleMovie2).2.2
      sampleMovie (by decide)).2.1

/-- C2: on a present id `get` returns the serialized stored record — an exact
copy, since the body deserializes back to the stored record (its `year` is
below 2^16 by the `u16` field type) — and `get` fails with `NOT_FOUND` exactly
when the id is absent. -/
theorem get_spec (state : MoviesState) (i : String) :
    (∀ m, state.movies.get i = some m →
      (get_handler i state).1 = Except.ok (String.mk (serializeMovieChars m)) ∧
      (m.year < 65536 → deserializeMovie (String.mk (serializeMovieChars m)) = some m)) ∧
    (state.movies.get i = none ↔ (get_handler i state).1 = Except.error StatusCode.NOT_FOUND) := by
  refine ⟨?_, ?_, ?_⟩
  · intro m hm
    refine ⟨?_, fun hy => deserializeMovie_serialize m hy⟩
    rw [get_handler_found i state m hm]
  · intro hn
    rw [get_handler_missing i state hn]
  · intro he
    cases hm : state.movies.get i with
    | none => rfl
    | some m =>
      rw [get_handler_found i state m hm] at he
      exact absurd he (by simp)

theorem get_spec_witness :
    (get_handler "m1" sampleState).1 =
      Except.ok (String.mk (serializeMovieChars sampleMovie)) ∧
    deserializeMovie (String.mk (serializeMovieChars sampleMovie)) = some sampleMovie ∧
    (get_handler "m2" sampleState).1 = Except.error StatusCode.NOT_FOUND := by
  refine ⟨?_, ?_, ?_⟩
  · exact ((get_spec sampleState "m1").1 sampleMovie (by decide)).1
  · exact ((get_spec sampleState "m1").1 sampleMovie (by decide)).2 (by decide)
  · exact ((get_spec sampleState "m2").2).mp (by decide)

/-- C3: a sequence of puts with pairwise-distinct ids, starting from the
fresh store, all succeed, and afterwards `get` on each id returns exactly
the record that was put for it. -/
theorem distinct_puts_get_spec (ms : List Movie)
    (hdist : ms.Pairwise (fun a b => a.id ≠ b.id)) :
    (∀ r ∈ (runPuts state_init ms).1, r = Except.ok ()) ∧
    (∀ m ∈ ms, (runPuts state_init ms).2.movies.get m.id = some m ∧
      (get_handler m.id (runPuts state_init ms).2).1 =
        Except.ok (String.mk (serializeMovieChars m))) := by
  have hfresh : ∀ m ∈ ms, state_init.movies.contains_key m.id = false := by
    intro m _
    rfl
  obtain ⟨hok, hget⟩ := runPuts_all_fresh ms state_init hfresh hdist
  refine ⟨hok, fun m hm => ⟨hget m hm, ?_⟩⟩
  rw [get_handler_found _ _ _ (hget m hm)]

theorem distinct_puts_get_spec_witness :
    (∀ r ∈ (runPuts state_init [sampleMovie, sampleMovie3]).1, r = Except.ok ()) ∧
    (runPuts state_init [sampleMovie, sampleMovie3]).2.movies.get "m2" = some sampleMovie3 := by
  have h := distinct_puts_get_spec [sampleMovie, sampleMovie3]
    (by simp [List.pairwise_cons]; decide)
  exact ⟨h.1, (h.2 sampleMovie3 (by simp)).1⟩

/-- C4: concurrent puts with the same id execute as some sequential order of
atomic handler runs (each handler holds the single mutex for its whole body);
in every such order over a fresh id, exactly one put succeeds and every other
fails with `BAD_REQUEST` (`DuplicateId`), regardless of arrival order. -/
theorem concurrent_same_id_puts (ms : List Movie) (i0 : String) (state : MoviesState)
    (hall : ∀ m ∈ ms, m.id = i0) (hfresh : state.movies.contains_key i0 = false)
    (hne : ms ≠ []) :
    (runPuts state ms).1.count (Except.ok ()) = 1 ∧
    (runPuts state ms).1.count (Except.error StatusCode.BAD_REQUEST) = ms.length - 1 ∧
    (runPuts state ms).1.length = ms.length :=
  runPuts_same_id_counts ms i0 state hall hfresh hne

theorem concurrent_same_id_puts_witness :
    (runPuts state_init [sampleMovie, sampleMovie2]).1.count (Except.ok ()) = 1 ∧
    (runPuts state_init [sampleMovie, sampleMovie2]).1.count
      (Except.error StatusCode.BAD_REQUEST) = 1 ∧
    (runPuts state_init [sampleMovie, sampleMovie2]).1.length = 2 := by
  have h := concurrent_same_id_puts [sampleMovie, sampleMovie2] "m1" state_init
    (by decide) (by decide) (by decide)
  exact ⟨h.1, h.2.1, h.2.2⟩

/-- C5: a record present in the store stays present and identical after any
further sequence of put and get operations — no operation mutates or removes
an existing record. -/
theorem record_immutable (state : MoviesState) (i : String) (m : Movie) (ops : List Op)
    (h : state.movies.get i = some m) :
    (runOps state ops).movies.get i = some m :=
  runOps_get_preserved ops state i m h

theorem record_immutable_witness :
    (runOps sampleState [Op.put sampleMovie2, Op.getById "m1",
      Op.put sampleMovie3]).movies.get "m1" = some sampleMovie :=
  record_immutable sampleState "m1" sampleMovie _ (by decide)

/-- C6: JSON serialization of a stored movie never fails, so the branch in
`get_handler` that maps a serialization failure to `NOT_FOUND` is
unreachable: a get on a present id always takes the success path. -/
theorem serialization_never_fails (state : MoviesState) (i : String) (m : Movie)
    (h : state.movies.get i = some m) :
    to_string_pretty m = Except.ok (String.mk (serializeMovieChars m)) ∧
    (get_handler i state).1 = Except.ok (String.mk (serializeMovieChars m)) := by
  refine ⟨rfl, ?_⟩
  rw [get_handler_found i state m h]

theorem serialization_never_fails_witness :
    to_string_pretty sampleMovie = Except.ok (String.mk (serializeMovieChars sampleMovie)) ∧
    (get_handler "m1" sampleState).1 =
      Except.ok (String.mk (serializeMovieChars sampleMovie)) :=
  serialization_never_fails sampleState "m1" sampleMovie (by decide)

/-- C7: the `year` of a record is bounded to the 16-bit range: every body
that deserializes yields a year below 2^16, every record stored by any
request sequence against the fresh store satisfies the bound, and every
stored record (in particular its year) round-trips exactly through put and
get. -/
theorem year_bounded_spec (body : String) (reqs : List Request) :
    (∀ m, deserializeMovie body = some m → m.year < 65536) ∧
    (∀ i m, (runRequests state_init reqs).movies.get i = some m → m.year < 65536) ∧
    (∀ i m, (runRequests state_init reqs).movies.get i = some m →
      deserializeMovie (String.mk (serializeMovieChars m)) = some m) := by
  have hinv := runRequests_years reqs state_init state_init_years
  exact ⟨fun m hm => deserializeMovie_yearInRange body m hm,
    fun i m hm => hinv i m hm,
    fun i m hm => deserializeMovie_serialize m (hinv i m hm)⟩

theorem year_bounded_spec_witness :
    sampleMovie.year < 65536 ∧
    deserializeMovie (String.mk (serializeMovieChars sampleMovie)) = some sampleMovie := by
  have h := year_bounded_spec (String.mk (serializeMovieChars sampleMovie))
    [Request.postMovie (String.mk (serializeMovieChars sampleMovie))]
  have hdes : deserializeMovie (String.mk (serializeMovieChars sampleMovie)) = some sampleMovie :=
    deserializeMovie_serialize sampleMovie (by decide)
  have hget : (runRequests state_init
      [Request.postMovie (String.mk (serializeMovieChars sampleMovie))]).movies.get "m1"
      = some sampleMovie := by
    rw [runRequests_one, handleRequest_post_some state_init _ sampleMovie hdes]
    decide
  exact ⟨h.2.1 "m1" sampleMovie hget, h.2.2 "m1" sampleMovie hget⟩

/-- C8 (counterexample): the code never checks that an id is non-empty — a
record whose id is the empty string is accepted by `put` and stored, and its
JSON form is accepted by the deserializer, refuting the claim that no stored
record can have an empty id. -/
theorem empty_id_counterexample :
    (post_handler state_init { id := "", name := "Up", year := 2009, was_good := true }).1
      = Except.ok () ∧
    (post_handler state_init
        { id := "", name := "Up", year := 2009, was_good := true }).2.movies.get ""
      = some { id := "", name := "Up", year := 2009, was_good := true } ∧
    deserializeMovie (String.mk (serializeMovieChars
        { id := "", name := "Up", year := 2009, was_good := true }))
      = some { id := "", name := "Up", year := 2009, was_good := true } := by
  exact ⟨rfl, by decide,
    deserializeMovie_serialize { id := "", name := "Up", year := 2009, was_good := true }
      (by decide)⟩

/-- C8 (amended): `put` performs no validation of the id — a record whose id
is the empty string is admitted whenever the empty-string key is free, and is
stored under the empty-string key like any other record. -/
theorem empty_id_admitted (state : MoviesState) (nm : String) (y : Nat) (g : Bool)
    (h : state.movies.contains_key "" = false) :
    (post_handler state { id := "", name := nm, year := y, was_good := g }).1 = Except.ok () ∧
    (post_handler state { id := "", name := nm, year := y, was_good := g }).2.movies.get ""
      = some { id := "", name := nm, year := y, was_good := g } := by
  have hc : state.movies.contains_key
      ({ id := "", name := nm, year := y, was_good := g } : Movie).id = false := h
  rw [post_handler_fresh state _ hc]
  exact ⟨rfl, MovieMap.get_insert_self _ _ _⟩

theorem empty_id_admitted_witness :
    (post_handler state_init { id := "", name := "Up", year := 2009, was_good := true }).1
      = Except.ok () ∧
    (post_handler state_init
        { id := "", name := "Up", year := 2009, was_good := true }).2.movies.get ""
      = some { id := "", name := "Up", year := 2009, was_good := true } :=
  empty_id_admitted state_init "Up" 2009 true (by decide)

/-- C9: a successful `put(r)` changes only the entry keyed by `r.id` — the
mapping at every other id is exactly what it was before the call. -/
theorem put_frame (state : MoviesState) (r : Movie) (st2 : MoviesState)
    (h : post_handler state r = (Except.ok (), st2)) :
    ∀ k, k ≠ r.id → st2.movies.get k = state.movies.get k := by
  intro k hk
  cases hc : state.movies.contains_key r.id
  · rw [post_handler_fresh state r hc] at h
    injection h with h1 h2
    subst h2
    exact MovieMap.get_insert_ne _ _ _ _ (fun he => hk he.symm)
  · rw [post_handler_dup state r hc] at h
    injection h with h1 h2
    exact absurd h1 (by simp)

theorem put_frame_witness :
    (post_handler sampleState sampleMovie3).2.movies.get "m1" = sampleState.movies.get "m1" :=
  put_frame sampleState sampleMovie3 (post_handler sampleState sampleMovie3).2 (by decide)
    "m1" (by decide)

/-- C10: `get` is read-only — for every state and id the store mapping after
the call equals the mapping before it, whether the record was found or not. -/
theorem get_readonly (state : MoviesState) (i : String) :
    (get_handler i state).2 = state :=
  get_handler_state i state

end MovieStore
